import Mathlib

/-!
Verification of the storyboard-extraction pipeline of the railway-pdf-server
repository (`server.js` and its source lineage).  The JavaScript functions
`groupIntoShots`, `analyzeGroupings`, `pdfToImages`, `extractText`,
`extractTextBatched` and the `extract-storyboard` request handler are shallowly
embedded as executable Lean definitions, and the frozen claims about them are
settled as theorems below the definitions.
-/

set_option maxRecDepth 10000

namespace PdfServer

/-! ### Character and string helpers

JavaScript string operations used by the pipeline (`trim`, regex `\s`,
substring search) modelled over `List Char`. -/

/-- Whitespace characters recognised by the JavaScript regex class `\s`
(restricted to the ASCII range, which covers every input considered here). -/
def jsWs (c : Char) : Bool :=
  c = ' ' || c = '\t' || c = '\n' || c = '\r' || c = '\x0b' || c = '\x0c'

/-- Model of JavaScript `String.prototype.trim` (ASCII whitespace). -/
def trimChars (cs : List Char) : List Char :=
  ((cs.dropWhile jsWs).reverse.dropWhile jsWs).reverse

/-- The JavaScript trim, lifted to `String`. -/
def trimStr (s : String) : String :=
  String.mk (trimChars s.data)

/-- First index at which `needle` occurs as a contiguous sublist of the
haystack, if any (the JavaScript `String.prototype.indexOf`). -/
def findSub (needle : List Char) : List Char → Option Nat
  | [] => if needle.isPrefixOf ([] : List Char) then some 0 else none
  | c :: t =>
    if needle.isPrefixOf (c :: t) then some 0
    else (findSub needle t).map (fun n => n + 1)

/-- JavaScript `String.prototype.includes`. -/
def containsSub (hay needle : String) : Bool :=
  (findSub needle.data hay.data).isSome

/-- JavaScript truthiness of a nullable string (`null`/`undefined` and the
empty string are falsy). -/
def jsTruthyOpt (o : Option String) : Bool :=
  match o with
  | some s => decide (s ≠ "")
  | none => false

/-- JavaScript `a || b` for a nullable string `a` with string default `b`. -/
def jsOrStr (o : Option String) (d : String) : String :=
  match o with
  | some s => if s = "" then d else s
  | none => d

/-! ### Data model

`Frame` is the merged per-frame record pushed onto `allFrames` by the
`extract-storyboard` handler: `{frameNumber, hasVisibleNumber, description,
dialog, image, spotName, pageNum}` plus the optional `shotGroup` tag written
by `analyzeGroupings`. -/

structure Frame where
  frameNumber : String
  hasVisibleNumber : Bool
  description : String
  dialog : String
  image : Option String
  spotName : Option String
  pageNum : Nat
  shotGroup : Option Nat
deriving DecidableEq, Repr

/-- A per-page text frame as returned by the extraction oracle
(`{frameNumber, description, dialog}`, each field possibly missing). -/
structure TextFrame where
  frameNumber : Option String
  description : Option String
  dialog : Option String
deriving DecidableEq, Repr

/-- The accumulator object built by `groupIntoShots`'s loop
(`{shotNumber, frames, images, descriptions, dialogs}`). -/
structure ShotAcc where
  shotNumber : String
  frames : List String
  images : List String
  descriptions : List String
  dialogs : List String
deriving DecidableEq, Repr

/-- The materialized shot returned by `groupIntoShots`' final `map`. -/
structure Shot where
  shotNumber : String
  frames : List String
  images : List String
  descriptions : List String
  dialogs : List String
  description : String
  dialog : String
  combined : String
deriving DecidableEq, Repr

/-! ### Shot Grouping Engine (`groupIntoShots`, server.js) -/

/-- Separator characters consumed by the regex `[\s.]*` after a recognised
label word. -/
def sepChar (c : Char) : Bool := jsWs c || c = '.'

/-- Model of `label.replace(/^(FR|FRAME|SHOT)[\s.]*/i, '')`.  JavaScript
alternation is leftmost-first, so `FR` (a prefix of `FRAME`) wins whenever it
matches and the `FRAME` alternative can never fire; `SHOT` is tried after. -/
def stripShotLabel (cs : List Char) : List Char :=
  if ['f', 'r'].isPrefixOf (cs.map Char.toLower) then
    (cs.drop 2).dropWhile sepChar
  else if ['s', 'h', 'o', 't'].isPrefixOf (cs.map Char.toLower) then
    (cs.drop 4).dropWhile sepChar
  else cs

/-- Model of `(label || '').replace(/^(FR|FRAME|SHOT)[\s.]*/i, '')
.match(/^(\d+)/)?.[1]` — the leading digit run of the stripped label, or
`none` when the stripped label does not start with a digit. -/
def leadingNumOf (s : String) : Option String :=
  let ds := (stripShotLabel s.data).takeWhile Char.isDigit
  if ds = [] then none else some (String.mk ds)

/-- The per-frame `startNewShot` decision of `groupIntoShots` for a frame at
index `i > 0`, as a function of the previous frame and the current frame. -/
def startNewShot (p f : Frame) : Bool :=
  if f.hasVisibleNumber then
    decide (leadingNumOf p.frameNumber ≠ leadingNumOf f.frameNumber)
  else
    match f.shotGroup, p.shotGroup with
    | some a, some b => decide (a ≠ b)
    | _, _ => true

/-- A freshly opened shot accumulator (`{shotNumber: String(shotNumber++),
frames: [], images: [], descriptions: [], dialogs: []}`). -/
def newAcc (n : Nat) : ShotAcc :=
  { shotNumber := Nat.repr n, frames := [], images := [], descriptions := [],
    dialogs := [] }

/-- The image value pushed for a frame: `f.image` when truthy. -/
def imgOf (f : Frame) : Option String :=
  match f.image with
  | some i => if i = "" then none else some i
  | none => none

/-- The four `push` statements at the bottom of `groupIntoShots`' loop body:
always push the label, and push image/description/dialog only when truthy. -/
def pushFrame (g : ShotAcc) (f : Frame) : ShotAcc :=
  { g with
    frames := g.frames ++ [f.frameNumber],
    images := g.images ++ (imgOf f).toList,
    descriptions := g.descriptions ++ (if f.description = "" then [] else [f.description]),
    dialogs := g.dialogs ++ (if f.dialog = "" then [] else [f.dialog]) }

/-- The main loop of `groupIntoShots`: state is the previous frame together
with the open accumulator (both exist exactly when at least one frame has been
processed), the shot counter, and the closed shots so far. -/
def groupAux : List Frame → Option (Frame × ShotAcc) → Nat → List ShotAcc → List ShotAcc
  | [], none, _, done => done
  | [], some (_, cur), _, done => done ++ [cur]
  | f :: rest, none, counter, done =>
    groupAux rest (some (f, pushFrame (newAcc counter) f)) (counter + 1) done
  | f :: rest, some (p, cur), counter, done =>
    if startNewShot p f then
      groupAux rest (some (f, pushFrame (newAcc counter) f)) (counter + 1) (done ++ [cur])
    else
      groupAux rest (some (f, pushFrame cur f)) counter done

/-- The shot accumulators produced by `groupIntoShots` before the final
materializing `map`. -/
def groupIntoShotsRaw (frames : List Frame) : List ShotAcc :=
  groupAux frames none 1 []

/-- The final `shots.map(g => ({...}))` of `groupIntoShots`: joined strings
plus the `combined` string built from descriptions, a blank entry, and
dialogs, with falsy entries filtered before the newline join. -/
def materialize (g : ShotAcc) : Shot :=
  { shotNumber := g.shotNumber, frames := g.frames, images := g.images,
    descriptions := g.descriptions, dialogs := g.dialogs,
    description := String.intercalate "\n" g.descriptions,
    dialog := String.intercalate "\n" g.dialogs,
    combined := String.intercalate "\n"
      ((g.descriptions ++ [""] ++ g.dialogs).filter (fun s => s ≠ "")) }

/-- The function `groupIntoShots(frames)` from server.js. -/
def groupIntoShots (frames : List Frame) : List Shot :=
  (groupIntoShotsRaw frames).map materialize

/-! Specification-side view of the loop: the list of maximal runs of frames
not separated by a `startNewShot` boundary.  `groupIntoShotsRaw` is proved
below to be exactly these runs, numbered from 1. -/

/-- Splits the frame list into runs at the `startNewShot` boundaries. -/
def splitShotsAux (p : Frame) (cur : List Frame) : List Frame → List (List Frame)
  | [] => [cur]
  | f :: rest =>
    if startNewShot p f then cur :: splitShotsAux f [f] rest
    else splitShotsAux f (cur ++ [f]) rest

/-- The runs of a whole frame list. -/
def splitShots : List Frame → List (List Frame)
  | [] => []
  | f :: rest => splitShotsAux f [f] rest

/-- The accumulator a run of frames generates, given its shot number. -/
def accOf (n : Nat) (chunk : List Frame) : ShotAcc :=
  { shotNumber := Nat.repr n,
    frames := chunk.map (fun f => f.frameNumber),
    images := chunk.filterMap imgOf,
    descriptions := (chunk.map (fun f => f.description)).filter (fun s => s ≠ ""),
    dialogs := (chunk.map (fun f => f.dialog)).filter (fun s => s ≠ "") }

/-- Numbers a list of runs consecutively starting at `n`. -/
def numberChunks (n : Nat) : List (List Frame) → List ShotAcc
  | [] => []
  | c :: cs => accOf n c :: numberChunks (n + 1) cs

theorem filterMap_singleton (g : Frame → Option String) (f : Frame) :
    List.filterMap g [f] = (g f).toList := by
  cases h : g f <;> simp [List.filterMap_cons, h, Option.toList]

theorem pushFrame_newAcc (n : Nat) (f : Frame) :
    pushFrame (newAcc n) f = accOf n [f] := by
  unfold pushFrame newAcc accOf
  by_cases hd : f.description = "" <;> by_cases hl : f.dialog = "" <;>
    simp [filterMap_singleton, hd, hl, List.filter_cons]

theorem accOf_append (n : Nat) (chunk : List Frame) (f : Frame) :
    accOf n (chunk ++ [f]) = pushFrame (accOf n chunk) f := by
  unfold pushFrame accOf
  by_cases hd : f.description = "" <;> by_cases hl : f.dialog = "" <;>
    simp [filterMap_singleton, hd, hl, List.filter_cons, List.map_append,
      List.filterMap_append, List.filter_append]

theorem groupAux_chunks (rest : List Frame) :
    ∀ (p : Frame) (chunk : List Frame) (n : Nat) (done : List ShotAcc),
      groupAux rest (some (p, accOf n chunk)) (n + 1) done
        = done ++ numberChunks n (splitShotsAux p chunk rest) := by
  induction rest with
  | nil =>
    intro p chunk n done
    simp [groupAux, splitShotsAux, numberChunks]
  | cons f rs ih =>
    intro p chunk n done
    by_cases h : startNewShot p f
    · simp only [groupAux, h, if_pos, pushFrame_newAcc, splitShotsAux,
        numberChunks]
      rw [ih f [f] (n + 1) (done ++ [accOf n chunk])]
      simp [numberChunks]
    · simp only [groupAux, h, if_neg, Bool.false_eq_true, not_false_iff,
        splitShotsAux, ite_false]
      rw [← accOf_append, ih f (chunk ++ [f]) n done]

/-- The loop of `groupIntoShots` produces exactly the boundary-split runs of the
input, numbered consecutively from 1. -/
theorem groupRaw_eq_chunks (fs : List Frame) :
    groupIntoShotsRaw fs = numberChunks 1 (splitShots fs) := by
  cases fs with
  | nil => rfl
  | cons f rest =>
    show groupAux (f :: rest) none 1 [] = _
    simp only [groupAux, pushFrame_newAcc]
    exact groupAux_chunks rest f [f] 1 []

theorem splitShotsAux_flatten (rest : List Frame) :
    ∀ (p : Frame) (cur : List Frame),
      (splitShotsAux p cur rest).flatten = cur ++ rest := by
  induction rest with
  | nil => intro p cur; simp [splitShotsAux]
  | cons f rs ih =>
    intro p cur
    by_cases h : startNewShot p f <;> simp [splitShotsAux, h, ih]

theorem splitShots_flatten (fs : List Frame) : (splitShots fs).flatten = fs := by
  cases fs with
  | nil => rfl
  | cons f rest => simpa using splitShotsAux_flatten rest f [f]

theorem splitShotsAux_ne_nil (rest : List Frame) :
    ∀ (p : Frame) (cur : List Frame), cur ≠ [] →
      ∀ c ∈ splitShotsAux p cur rest, c ≠ [] := by
  induction rest with
  | nil => intro p cur hcur c hc; simp [splitShotsAux] at hc; simpa [hc]
  | cons f rs ih =>
    intro p cur hcur c hc
    by_cases h : startNewShot p f
    · simp only [splitShotsAux, h, if_pos, List.mem_cons] at hc
      rcases hc with rfl | hc
      · exact hcur
      · exact ih f [f] (by simp) c hc
    · simp only [splitShotsAux, h, Bool.false_eq_true, not_false_iff,
        ite_false] at hc
      exact ih f (cur ++ [f]) (by simp) c hc

theorem splitShots_ne_nil (fs : List Frame) :
    ∀ c ∈ splitShots fs, c ≠ [] := by
  cases fs with
  | nil => intro c hc; simp [splitShots] at hc
  | cons f rest => exact splitShotsAux_ne_nil rest f [f] (by simp)

theorem numberChunks_length (L : List (List Frame)) :
    ∀ n, (numberChunks n L).length = L.length := by
  induction L with
  | nil => intro n; rfl
  | cons c cs ih => intro n; simp [numberChunks, ih]

theorem numberChunks_mem (L : List (List Frame)) :
    ∀ n a, a ∈ numberChunks n L → ∃ m c, c ∈ L ∧ a = accOf m c := by
  induction L with
  | nil => intro n a ha; simp [numberChunks] at ha
  | cons c cs ih =>
    intro n a ha
    simp only [numberChunks, List.mem_cons] at ha
    rcases ha with rfl | ha
    · exact ⟨n, c, by simp⟩
    · obtain ⟨m, c', hc', rfl⟩ := ih (n + 1) a ha
      exact ⟨m, c', by simp [hc']⟩

/-! ### Frame Renumbering & Consistency Pass (`extract-storyboard` handler)

The handler walks the spot's frames keeping `numberPageMap` (a plain object
mapping a frame label to the page number last stored for it), sets
`hasDuplicates` when a truthy stored page differs from the current frame's
page, and renumbers when `anyWithoutNumbers || hasDuplicates`. -/

/-- Lookup in the association-list model of `numberPageMap`. -/
def assocGet : List (String × Nat) → String → Option Nat
  | [], _ => none
  | (k, v) :: rest, key => if k = key then some v else assocGet rest key

/-- Assignment `numberPageMap[key] = f.pageNum` (overwrite or append). -/
def assocSet : List (String × Nat) → String → Nat → List (String × Nat)
  | [], key, v => [(key, v)]
  | (k, w) :: rest, key, v =>
    if k = key then (k, v) :: rest else (k, w) :: assocSet rest key v

/-- The duplicate-detection loop: `numberPageMap[key] &&
numberPageMap[key] !== f.pageNum` breaks with `hasDuplicates = true`
(JavaScript truthiness makes a stored page number 0 falsy). -/
def hasDuplicatesAux : List Frame → List (String × Nat) → Bool
  | [], _ => false
  | f :: rest, m =>
    match assocGet m f.frameNumber with
    | some p =>
      if p ≠ 0 && p ≠ f.pageNum then true
      else hasDuplicatesAux rest (assocSet m f.frameNumber f.pageNum)
    | none => hasDuplicatesAux rest (assocSet m f.frameNumber f.pageNum)

/-- The flag `hasDuplicates` for a spot's frame list. -/
def hasDuplicates (fs : List Frame) : Bool := hasDuplicatesAux fs []

/-- The check `frames.some(f => !f.hasVisibleNumber)`. -/
def anyWithoutNumbers (fs : List Frame) : Bool :=
  fs.any (fun f => !f.hasVisibleNumber)

/-- The loop `frames.forEach((f, idx) => { f.frameNumber = String(idx + 1); })`,
unfolded with an explicit starting index. -/
def renumberFromIdx : Nat → List Frame → List Frame
  | _, [] => []
  | i, f :: rest =>
    { f with frameNumber := Nat.repr (i + 1) } :: renumberFromIdx (i + 1) rest

/-- The renumbering effect applied to a whole spot. -/
def renumberFrames (fs : List Frame) : List Frame := renumberFromIdx 0 fs

/-- The conditional renumbering step of the handler
(`if (anyWithoutNumbers || hasDuplicates) { ...renumber... }`). -/
def renumberPass (fs : List Frame) : List Frame :=
  if anyWithoutNumbers fs || hasDuplicates fs then renumberFrames fs else fs

/-- The order-respecting pairwise duplicate condition of the claim: two frames
of the spot (in order) share a label but come from different pages. -/
def DupPair (fs : List Frame) : Prop :=
  ∃ a b, [a, b].Sublist fs ∧ a.frameNumber = b.frameNumber ∧
    a.pageNum ≠ b.pageNum

/-- A frame whose label is bound in the map to a different page. -/
def Viol (m : List (String × Nat)) (f : Frame) : Prop :=
  ∃ p, assocGet m f.frameNumber = some p ∧ p ≠ f.pageNum

theorem assocGet_assocSet (m : List (String × Nat)) (k : String) (v : Nat) :
    ∀ k', assocGet (assocSet m k v) k' = if k = k' then some v else assocGet m k' := by
  induction m with
  | nil =>
    intro k'
    by_cases h : k = k' <;> simp [assocSet, assocGet, h]
  | cons kv rest ih =>
    intro k'
    obtain ⟨k0, w⟩ := kv
    by_cases h0 : k0 = k
    · subst h0
      by_cases h : k0 = k' <;> simp [assocSet, assocGet, h]
    · by_cases h : k0 = k'
      · subst h
        have : ¬k = k0 := fun he => h0 he.symm
        simp [assocSet, assocGet, h0, this]
      · simp [assocSet, assocGet, h0, h, ih k']

theorem mem_assocSet (m : List (String × Nat)) (k : String) (v : Nat) :
    ∀ kv', kv' ∈ assocSet m k v → kv' ∈ m ∨ kv' = (k, v) := by
  induction m with
  | nil => intro kv' h; simp [assocSet] at h; simp [h]
  | cons kv rest ih =>
    intro kv' h
    obtain ⟨k0, w⟩ := kv
    by_cases h0 : k0 = k <;> simp [assocSet, h0] at h <;> rcases h with h | h
    · subst h0; simp [h]
    · simp [h]
    · simp [h]
    · rcases ih kv' h with hm | he
      · simp [hm]
      · simp [he]

theorem assocGet_mem (m : List (String × Nat)) (k : String) (v : Nat)
    (h : assocGet m k = some v) : (k, v) ∈ m := by
  induction m with
  | nil => simp [assocGet] at h
  | cons kv rest ih =>
    obtain ⟨k0, w⟩ := kv
    by_cases h0 : k0 = k
    · subst h0
      simp [assocGet] at h
      simp [h]
    · simp [assocGet, h0] at h
      simp [ih h]

theorem dupAux_cons_some {f : Frame} {rest : List Frame}
    {m : List (String × Nat)} {p : Nat}
    (hg : assocGet m f.frameNumber = some p) :
    hasDuplicatesAux (f :: rest) m
      = if p ≠ 0 && p ≠ f.pageNum then true
        else hasDuplicatesAux rest (assocSet m f.frameNumber f.pageNum) := by
  simp only [hasDuplicatesAux, hg]

theorem dupAux_cons_none {f : Frame} {rest : List Frame}
    {m : List (String × Nat)}
    (hg : assocGet m f.frameNumber = none) :
    hasDuplicatesAux (f :: rest) m
      = hasDuplicatesAux rest (assocSet m f.frameNumber f.pageNum) := by
  simp only [hasDuplicatesAux, hg]

theorem dupPair_cons (f : Frame) {rest : List Frame} (h : DupPair rest) :
    DupPair (f :: rest) := by
  obtain ⟨a, b, hs, h1, h2⟩ := h
  exact ⟨a, b, hs.cons f, h1, h2⟩

theorem dupAux_complete (fs : List Frame) :
    ∀ (m : List (String × Nat)), (∀ kv ∈ m, 0 < kv.2) →
      (∀ f ∈ fs, 0 < f.pageNum) →
      hasDuplicatesAux fs m = true → (∃ f ∈ fs, Viol m f) ∨ DupPair fs := by
  induction fs with
  | nil => intro m _ _ h; simp [hasDuplicatesAux] at h
  | cons f rest ih =>
    intro m hm hfs h
    have hrest : ∀ g ∈ rest, 0 < g.pageNum := fun g hg => hfs g (by simp [hg])
    have hm' : ∀ kv ∈ assocSet m f.frameNumber f.pageNum, 0 < kv.2 := by
      intro kv hkv
      rcases mem_assocSet m _ _ kv hkv with hin | rfl
      · exact hm kv hin
      · simpa using hfs f (by simp)
    cases hg : assocGet m f.frameNumber with
    | some p =>
      rw [dupAux_cons_some hg] at h
      by_cases hc : (p ≠ 0 && p ≠ f.pageNum) = true
      · rcases Bool.and_eq_true_iff.mp hc with ⟨-, hp2⟩
        exact Or.inl ⟨f, by simp, p, hg, by simpa using hp2⟩
      · have hp : p = f.pageNum := by
          have hpos : 0 < p := hm (f.frameNumber, p) (assocGet_mem m _ p hg)
          simp only [Bool.and_eq_true, decide_eq_true_eq, not_and, ne_eq,
            Decidable.not_not] at hc
          exact hc (by omega)
        rw [if_neg hc] at h
        rcases ih _ hm' hrest h with ⟨g, hgr, q, hq, hqp⟩ | hd
        · rw [assocGet_assocSet] at hq
          by_cases hlab : f.frameNumber = g.frameNumber
          · rw [if_pos hlab] at hq
            injection hq with hq
            exact Or.inr ⟨f, g, List.Sublist.cons₂ f (List.singleton_sublist.mpr hgr),
              hlab, by omega⟩
          · rw [if_neg hlab] at hq
            exact Or.inl ⟨g, by simp [hgr], q, hq, hqp⟩
        · exact Or.inr (dupPair_cons f hd)
    | none =>
      rw [dupAux_cons_none hg] at h
      rcases ih _ hm' hrest h with ⟨g, hgr, q, hq, hqp⟩ | hd
      · rw [assocGet_assocSet] at hq
        by_cases hlab : f.frameNumber = g.frameNumber
        · rw [if_pos hlab] at hq
          injection hq with hq
          exact Or.inr ⟨f, g, List.Sublist.cons₂ f (List.singleton_sublist.mpr hgr),
            hlab, by omega⟩
        · rw [if_neg hlab] at hq
          exact Or.inl ⟨g, by simp [hgr], q, hq, hqp⟩
      · exact Or.inr (dupPair_cons f hd)

theorem dupAux_of_viol (fs : List Frame) :
    ∀ (m : List (String × Nat)), (∀ kv ∈ m, 0 < kv.2) →
      (∀ f ∈ fs, 0 < f.pageNum) →
      (∃ f ∈ fs, Viol m f) → hasDuplicatesAux fs m = true := by
  induction fs with
  | nil => intro m _ _ h; simp at h
  | cons f rest ih =>
    intro m hm hfs ⟨g, hgmem, q, hq, hqp⟩
    have hrest : ∀ x ∈ rest, 0 < x.pageNum := fun x hx => hfs x (by simp [hx])
    cases hg : assocGet m f.frameNumber with
    | some p =>
      rw [dupAux_cons_some hg]
      have hppos : 0 < p := hm (f.frameNumber, p) (assocGet_mem m _ p hg)
      by_cases hc : (p ≠ 0 && p ≠ f.pageNum) = true
      · rw [if_pos hc]
      · have hp : p = f.pageNum := by
          simp only [Bool.and_eq_true, decide_eq_true_eq, not_and, ne_eq,
            Decidable.not_not] at hc
          exact hc (by omega)
        rw [if_neg hc]
        have hm' : ∀ kv ∈ assocSet m f.frameNumber f.pageNum, 0 < kv.2 := by
          intro kv hkv
          rcases mem_assocSet m _ _ kv hkv with hin | rfl
          · exact hm kv hin
          · simp; omega
        apply ih _ hm' hrest
        rcases List.mem_cons.mp hgmem with rfl | hgr
        · exact absurd hq (by rw [hg]; intro he; injection he with he; omega)
        · refine ⟨g, hgr, ?_⟩
          by_cases hlab : f.frameNumber = g.frameNumber
          · refine ⟨f.pageNum, ?_, ?_⟩
            · rw [assocGet_assocSet, if_pos hlab]
            · rw [← hlab] at hq; rw [hg] at hq; injection hq with hq; omega
          · exact ⟨q, by rw [assocGet_assocSet, if_neg hlab]; exact hq, hqp⟩
    | none =>
      rw [dupAux_cons_none hg]
      rcases List.mem_cons.mp hgmem with rfl | hgr
      · rw [hg] at hq; exact absurd hq (by simp)
      · apply ih (assocSet m f.frameNumber f.pageNum)
        · intro kv hkv
          rcases mem_assocSet m _ _ kv hkv with hin | rfl
          · exact hm kv hin
          · simpa using hfs f (by simp)
        · exact hrest
        · refine ⟨g, hgr, ?_⟩
          by_cases hlab : f.frameNumber = g.frameNumber
          · rw [← hlab, hg] at hq; exact absurd hq (by simp)
          · exact ⟨q, by rw [assocGet_assocSet, if_neg hlab]; exact hq, hqp⟩

theorem dupAux_of_pair (fs : List Frame) :
    ∀ (m : List (String × Nat)), (∀ kv ∈ m, 0 < kv.2) →
      (∀ f ∈ fs, 0 < f.pageNum) →
      DupPair fs → hasDuplicatesAux fs m = true := by
  induction fs with
  | nil =>
    intro m _ _ ⟨a, b, hs, _, _⟩
    simp at hs
  | cons f rest ih =>
    intro m hm hfs ⟨a, b, hs, h1, h2⟩
    have hrest : ∀ x ∈ rest, 0 < x.pageNum := fun x hx => hfs x (by simp [hx])
    have hm' : ∀ kv ∈ assocSet m f.frameNumber f.pageNum, 0 < kv.2 := by
      intro kv hkv
      rcases mem_assocSet m _ _ kv hkv with hin | rfl
      · exact hm kv hin
      · simpa using hfs f (by simp)
    have hviol : [b].Sublist rest → f.frameNumber = b.frameNumber →
        f.pageNum ≠ b.pageNum →
        hasDuplicatesAux rest (assocSet m f.frameNumber f.pageNum) = true := by
      intro hs' hlab hpg
      apply dupAux_of_viol rest _ hm' hrest
      exact ⟨b, List.singleton_sublist.mp hs',
        f.pageNum, by rw [assocGet_assocSet, if_pos hlab], hpg⟩
    cases hg : assocGet m f.frameNumber with
    | some p =>
      rw [dupAux_cons_some hg]
      by_cases hc : (p ≠ 0 && p ≠ f.pageNum) = true
      · rw [if_pos hc]
      · rw [if_neg hc]
        cases hs with
        | cons _ hs' => exact ih _ hm' hrest ⟨a, b, hs', h1, h2⟩
        | cons₂ _ hs' => exact hviol hs' h1 h2
    | none =>
      rw [dupAux_cons_none hg]
      cases hs with
      | cons _ hs' => exact ih _ hm' hrest ⟨a, b, hs', h1, h2⟩
      | cons₂ _ hs' => exact hviol hs' h1 h2

/-- The duplicate flag computed by the handler holds exactly when two frames
of the spot share a label but come from different pages (for page numbers as
the handler produces them, i.e. positive ones). -/
theorem hasDuplicates_iff_dupPair (fs : List Frame)
    (hfs : ∀ f ∈ fs, 0 < f.pageNum) :
    hasDuplicates fs = true ↔ DupPair fs := by
  constructor
  · intro h
    rcases dupAux_complete fs [] (by simp) hfs h with ⟨f, _, p, hp, _⟩ | hd
    · simp [assocGet] at hp
    · exact hd
  · exact dupAux_of_pair fs [] (by simp) hfs

theorem anyWithoutNumbers_iff (fs : List Frame) :
    anyWithoutNumbers fs = true ↔ ∃ f ∈ fs, f.hasVisibleNumber = false := by
  simp [anyWithoutNumbers, List.any_eq_true]

theorem renumberFromIdx_labels (fs : List Frame) :
    ∀ i, (renumberFromIdx i fs).map (fun f => f.frameNumber)
      = (List.range fs.length).map (fun k => Nat.repr (i + k + 1)) := by
  induction fs with
  | nil => intro i; rfl
  | cons f rest ih =>
    intro i
    rw [List.length_cons, List.range_succ_eq_map]
    simp only [renumberFromIdx, List.map_cons, List.map_map, ih (i + 1)]
    congr 1
    exact List.map_congr_left (fun k _ => by simp [Function.comp]; congr 1; omega)

/-! ### Region/text reconciliation (`extract-storyboard` handler, merge loop)

For one page the handler pushes `max(textFrames.length, images.length)`
records, with `tf = textFrames[j] || {}` and `img = images[j] || null`. -/

/-- The default produced by `textFrames[j] || {}` beyond the text list. -/
def emptyTextFrame : TextFrame :=
  { frameNumber := none, description := none, dialog := none }

/-- Lookup `images[j] || null` (an out-of-range index or an empty string both give
`null`). -/
def imageAt (images : List String) (j : Nat) : Option String :=
  match images[j]? with
  | some s => if s = "" then none else some s
  | none => none

/-- The record pushed onto `allFrames` for index `j` of a page. -/
def mergedFrameAt (pageNum : Nat) (hasVisibleNumbers : Bool)
    (spot : Option String) (textFrames : List TextFrame)
    (images : List String) (j : Nat) : Frame :=
  let tf := textFrames.getD j emptyTextFrame
  { frameNumber := jsOrStr tf.frameNumber (Nat.repr (j + 1)),
    hasVisibleNumber := hasVisibleNumbers,
    description := jsOrStr tf.description "",
    dialog := jsOrStr tf.dialog "",
    image := imageAt images j,
    spotName := spot,
    pageNum := pageNum,
    shotGroup := none }

/-- The merged `ExtractedFrame` records produced for one page. -/
def mergePage (pageNum : Nat) (hasVisibleNumbers : Bool) (spot : Option String)
    (textFrames : List TextFrame) (images : List String) : List Frame :=
  (List.range (max textFrames.length images.length)).map
    (mergedFrameAt pageNum hasVisibleNumbers spot textFrames images)

/-! ### Model-Assisted Grouping Pass (`analyzeGroupings`, server.js)

The pass submits thumbnails of the first `min(count, 24)` frames of
`frames.filter(f => f.image)` to the oracle, then applies the returned
partition with `groups.forEach((group, shotIdx) => group.forEach(frameNum =>
{ const idx = frameNum - 1; if (frames[idx]) frames[idx].shotGroup =
shotIdx; }))` — indexing into the unfiltered `frames` array. -/

/-- The 0-based positions of the frames whose images are submitted to the
oracle (truthy image, capped at 24). -/
def submittedPositions (fs : List Frame) : List Nat :=
  (((fs.enum).filter (fun p => jsTruthyOpt p.2.image)).map (fun p => p.1)).take 24

/-- Assignment `frames[idx].shotGroup = shotIdx` for an in-range index, identity
otherwise. -/
def setShotGroup : List Frame → Nat → Nat → List Frame
  | [], _, _ => []
  | f :: rest, 0, g => { f with shotGroup := some g } :: rest
  | f :: rest, Nat.succ i, g => f :: setShotGroup rest i g

/-- One group's inner `forEach`: each member `frameNum` writes `shotIdx` at
`frames[frameNum - 1]` (a zero `frameNum` would index `frames[-1]`, which is
absent, so it is skipped). -/
def applyGroup : List Frame → List Nat → Nat → List Frame
  | fs, [], _ => fs
  | fs, n :: ns, shotIdx =>
    applyGroup (if n = 0 then fs else setShotGroup fs (n - 1) shotIdx) ns shotIdx

/-- The outer `forEach` over the oracle's groups. -/
def applyGroupingsFrom : List Frame → List (List Nat) → Nat → List Frame
  | fs, [], _ => fs
  | fs, g :: gs, shotIdx => applyGroupingsFrom (applyGroup fs g shotIdx) gs (shotIdx + 1)

/-- The annotation step of `analyzeGroupings` once the oracle has returned a
parsed `groups` array. -/
def applyGroupings (fs : List Frame) (groups : List (List Nat)) : List Frame :=
  applyGroupingsFrom fs groups 0

/-! ### Page Rasterizer retry loop (`pdfToImages`, server.js) -/

/-- The constant `MAX_RETRIES` from `pdfToImages`. -/
def MAX_RETRIES : Nat := 2

/-- The transiency test of the retry guard: the error message contains
`'timeout'`, `'Timeout'`, `'Failed to load'` or `'net::'`. -/
def transientError (msg : String) : Bool :=
  containsSub msg "timeout" || containsSub msg "Timeout" ||
    containsSub msg "Failed to load" || containsSub msg "net::"

/-- Observable outcome of one run of `pdfToImages`: the final result, the
number of attempts made, and the list of backoff waits (in ms) taken between
attempts. -/
structure RunOut where
  result : Except String Unit
  attempts : Nat
  delays : List Nat
deriving Repr

/-- The run of `pdfToImages` from `retryCount` on, abstracted over the outcome of each
attempt (`attempt k = none` means attempt `k` succeeds, `attempt k = some m`
means it throws an error with message `m`).  A transient failure with
`retryCount < MAX_RETRIES` waits `2000 * (retryCount + 1)` ms and recurses on
`retryCount + 1`; any other failure is rethrown at once. -/
def pdfRun (attempt : Nat → Option String) (retryCount : Nat) : RunOut :=
  match attempt retryCount with
  | none => { result := Except.ok (), attempts := 1, delays := [] }
  | some m =>
    if h : retryCount < MAX_RETRIES ∧ transientError m = true then
      let r := pdfRun attempt (retryCount + 1)
      { result := r.result, attempts := r.attempts + 1,
        delays := 2000 * (retryCount + 1) :: r.delays }
    else { result := Except.error m, attempts := 1, delays := [] }
termination_by MAX_RETRIES - retryCount
decreasing_by simp [MAX_RETRIES] at *; omega

/-- A whole `pdfToImages(pdfBuffer, outputDir)` call (initial
`retryCount = 0`). -/
def pdfToImagesRun (attempt : Nat → Option String) : RunOut := pdfRun attempt 0

/-! ### JSON values and `JSON.parse`

`extractText`/`extractTextBatched` hand the oracle's text to the JavaScript
built-in `JSON.parse`.  The built-in is modelled by a strict recursive-descent
parser over the standard JSON grammar (numbers keep their lexeme; `\uXXXX`
escapes decode to the corresponding code point). -/

inductive Json where
  | null : Json
  | bool : Bool → Json
  | num : String → Json
  | str : String → Json
  | arr : List Json → Json
  | obj : List (String × Json) → Json
deriving Repr

/-- JSON whitespace (space, tab, line feed, carriage return). -/
def jsonWsChar (c : Char) : Bool :=
  c = ' ' || c = '\t' || c = '\n' || c = '\r'

/-- Skips JSON whitespace. -/
def skipJsonWs (cs : List Char) : List Char := cs.dropWhile jsonWsChar

/-- Value of a hexadecimal digit. -/
def hexVal (c : Char) : Option Nat :=
  if c.isDigit then some (c.toNat - 48)
  else if 'a' ≤ c ∧ c ≤ 'f' then some (c.toNat - 87)
  else if 'A' ≤ c ∧ c ≤ 'F' then some (c.toNat - 55)
  else none

/-- Parses the body of a JSON string after the opening quote; returns the
decoded characters and the input after the closing quote. -/
def parseStringBody : List Char → Option (List Char × List Char)
  | [] => none
  | '"' :: t => some ([], t)
  | '\\' :: '"' :: t => (parseStringBody t).map (fun p => ('"' :: p.1, p.2))
  | '\\' :: '\\' :: t => (parseStringBody t).map (fun p => ('\\' :: p.1, p.2))
  | '\\' :: '/' :: t => (parseStringBody t).map (fun p => ('/' :: p.1, p.2))
  | '\\' :: 'b' :: t => (parseStringBody t).map (fun p => ('\x08' :: p.1, p.2))
  | '\\' :: 'f' :: t => (parseStringBody t).map (fun p => ('\x0c' :: p.1, p.2))
  | '\\' :: 'n' :: t => (parseStringBody t).map (fun p => ('\n' :: p.1, p.2))
  | '\\' :: 'r' :: t => (parseStringBody t).map (fun p => ('\r' :: p.1, p.2))
  | '\\' :: 't' :: t => (parseStringBody t).map (fun p => ('\t' :: p.1, p.2))
  | '\\' :: 'u' :: h1 :: h2 :: h3 :: h4 :: t =>
    (match hexVal h1, hexVal h2, hexVal h3, hexVal h4 with
     | some a, some b, some c, some d =>
       (parseStringBody t).map
         (fun p => (Char.ofNat (((a * 16 + b) * 16 + c) * 16 + d) :: p.1, p.2))
     | _, _, _, _ => none)
  | '\\' :: _ => none
  | c :: t =>
    if c.toNat < 32 then none
    else (parseStringBody t).map (fun p => (c :: p.1, p.2))

/-- Leading decimal digits and the rest. -/
def takeDigits (cs : List Char) : List Char × List Char :=
  (cs.takeWhile Char.isDigit, cs.dropWhile Char.isDigit)

/-- JSON integer part: `0`, or a nonzero digit followed by digits. -/
def lexInt : List Char → Option (List Char × List Char)
  | [] => none
  | c :: t =>
    if c = '0' then some (['0'], t)
    else if c.isDigit then
      some (c :: (takeDigits t).1, (takeDigits t).2)
    else none

/-- Optional JSON fraction part. -/
def lexFrac : List Char → Option (List Char × List Char)
  | '.' :: t =>
    if (takeDigits t).1 = [] then none
    else some ('.' :: (takeDigits t).1, (takeDigits t).2)
  | cs => some ([], cs)

/-- Digits of a JSON exponent after the `e`/`E` and optional sign. -/
def lexExpAfterE (e : Char) : List Char → Option (List Char × List Char)
  | [] => none
  | s :: t =>
    if s = '+' || s = '-' then
      if (takeDigits t).1 = [] then none
      else some (e :: s :: (takeDigits t).1, (takeDigits t).2)
    else
      if (takeDigits (s :: t)).1 = [] then none
      else some (e :: (takeDigits (s :: t)).1, (takeDigits (s :: t)).2)

/-- Optional JSON exponent part. -/
def lexExp : List Char → Option (List Char × List Char)
  | [] => some ([], [])
  | c :: t =>
    if c = 'e' || c = 'E' then lexExpAfterE c t
    else some ([], c :: t)

/-- JSON number without the optional leading minus. -/
def lexIntFracExp (cs : List Char) : Option (List Char × List Char) :=
  match lexInt cs with
  | some (i, r1) =>
    (match lexFrac r1 with
     | some (fr, r2) =>
       (match lexExp r2 with
        | some (ex, r3) => some (i ++ fr ++ ex, r3)
        | none => none)
     | none => none)
  | none => none

/-- A whole JSON number lexeme. -/
def lexNumber : List Char → Option (List Char × List Char)
  | '-' :: t => (lexIntFracExp t).map (fun p => ('-' :: p.1, p.2))
  | cs => lexIntFracExp cs

mutual

/-- Parses one JSON value (after skipping whitespace); fuel bounds the
recursion depth. -/
def parseV : Nat → List Char → Option (Json × List Char)
  | 0, _ => none
  | Nat.succ fuel, cs =>
    match skipJsonWs cs with
    | 'n' :: 'u' :: 'l' :: 'l' :: t => some (Json.null, t)
    | 't' :: 'r' :: 'u' :: 'e' :: t => some (Json.bool true, t)
    | 'f' :: 'a' :: 'l' :: 's' :: 'e' :: t => some (Json.bool false, t)
    | '"' :: t => (parseStringBody t).map (fun p => (Json.str (String.mk p.1), p.2))
    | '[' :: t =>
      (match skipJsonWs t with
       | ']' :: t2 => some (Json.arr [], t2)
       | _ => (parseElems fuel t).map (fun p => (Json.arr p.1, p.2)))
    | '\x7b' :: t =>
      (match skipJsonWs t with
       | '\x7d' :: t2 => some (Json.obj [], t2)
       | _ => (parseMembers fuel t).map (fun p => (Json.obj p.1, p.2)))
    | c :: t =>
      if c = '-' || c.isDigit then
        (lexNumber (c :: t)).map (fun p => (Json.num (String.mk p.1), p.2))
      else none
    | [] => none

/-- Parses the comma-separated elements of a nonempty array up to `]`. -/
def parseElems : Nat → List Char → Option (List Json × List Char)
  | 0, _ => none
  | Nat.succ fuel, cs =>
    match parseV fuel cs with
    | some (v, r) =>
      (match skipJsonWs r with
       | ',' :: t => (parseElems fuel t).map (fun p => (v :: p.1, p.2))
       | ']' :: t => some ([v], t)
       | _ => none)
    | none => none

/-- Parses the comma-separated members of a nonempty object up to the closing
brace. -/
def parseMembers : Nat → List Char → Option (List (String × Json) × List Char)
  | 0, _ => none
  | Nat.succ fuel, cs =>
    match skipJsonWs cs with
    | '"' :: t =>
      (match parseStringBody t with
       | some (k, r1) =>
         (match skipJsonWs r1 with
          | ':' :: r2 =>
            (match parseV fuel r2 with
             | some (v, r3) =>
               (match skipJsonWs r3 with
                | ',' :: r4 =>
                  (parseMembers fuel r4).map (fun p => ((String.mk k, v) :: p.1, p.2))
                | '\x7d' :: r4 => some ([(String.mk k, v)], r4)
                | _ => none)
             | none => none)
          | _ => none)
       | none => none)
    | _ => none

end

/-- Model of `JSON.parse`: one value, then nothing but whitespace may remain. -/
def jsonParse (s : String) : Option Json :=
  match parseV (2 * s.data.length + 2) s.data with
  | some (v, rest) => if skipJsonWs rest = [] then some v else none
  | none => none

/-! ### Oracle-response parsing (`extractText`, `extractTextBatched`)

The code-fence regex match and the bracket-span regex match of the two
extractor variants, then the parse-or-default structure around `JSON.parse`. -/

/-- The three-backtick fence delimiter. -/
def fenceMarker : List Char := [Char.ofNat 96, Char.ofNat 96, Char.ofNat 96]

/-- The fence regex attempted at one position: a fence delimiter, an optional
literal `json`, optional whitespace, then a lazily captured body up to the
next fence delimiter.  Returns the whole match and the captured group. -/
def tryFenceAt (cs : List Char) : Option (List Char × List Char) :=
  if fenceMarker.isPrefixOf cs then
    let r1 := cs.drop 3
    let r2 := if ['j', 's', 'o', 'n'].isPrefixOf r1 then r1.drop 4 else r1
    let r3 := r2.dropWhile jsWs
    match findSub fenceMarker r3 with
    | some k =>
      some (cs.take (3 + (r1.length - r2.length) + (r2.length - r3.length) + k + 3),
        r3.take k)
    | none => none
  else none

/-- The fence regex over the whole text: the match at the leftmost position
where the whole pattern (including the closing fence) succeeds. -/
def fenceSearch : List Char → Option (List Char × List Char)
  | [] => none
  | c :: t =>
    match tryFenceAt (c :: t) with
    | some r => some r
    | none => fenceSearch t

/-- The greedy regex matching a bracket span: from the first opening square
bracket to the last closing one after it, if any. -/
def bracketSpan (cs : List Char) : Option (List Char) :=
  match cs.findIdx? (fun c => c = '['), cs.reverse.findIdx? (fun c => c = ']') with
  | some i, some rj =>
    let j := cs.length - 1 - rj
    if i < j then some ((cs.drop i).take (j - i + 1)) else none
  | _, _ => none

/-- The safe default of `extractText` on a parse failure. -/
def defaultSingle : Json :=
  Json.obj [("spotName", Json.null), ("frames", Json.arr [])]

/-- The string `extractText` hands to `JSON.parse` (before `trim`): the fence
capture when the fence regex matches, otherwise the whole response text. -/
def singleCandidate (text : String) : String :=
  match fenceSearch text.data with
  | some (_, cap) => String.mk cap
  | none => text

/-- The response handling of `extractText`: parse the candidate, or return the
safe empty default. -/
def extractTextParse (text : String) : Json :=
  match jsonParse (trimStr (singleCandidate text)) with
  | some v => v
  | none => defaultSingle

/-- The string `extractTextBatched` hands to `JSON.parse`: the fence capture
(or, when the capture is empty and hence falsy, the whole fence match), and
otherwise the bracket span, and otherwise the whole text. -/
def batchedCandidate (text : String) : String :=
  match fenceSearch text.data with
  | some (whole, cap) => if cap = [] then String.mk whole else String.mk cap
  | none =>
    match bracketSpan text.data with
    | some sp => String.mk sp
    | none => text

/-- The per-page safe default of `extractTextBatched` on a parse failure. -/
def emptyPageResult (pageNum : Nat) : Json :=
  Json.obj [("pageNum", Json.num (Nat.repr pageNum)), ("spotName", Json.null),
    ("frames", Json.arr [])]

/-- The response handling of `extractTextBatched`: parse the candidate, wrap a
non-array result into a one-element array, or produce one empty default per
requested page. -/
def extractTextBatchedParse (pageNums : List Nat) (text : String) : List Json :=
  match jsonParse (trimStr (batchedCandidate text)) with
  | some (Json.arr xs) => xs
  | some v => [v]
  | none => pageNums.map emptyPageResult

/-- Depth-counting scan collecting a balanced brace/bracket span. -/
def takeBalanced : Nat → List Char → List Char → Option (List Char)
  | _, _, [] => none
  | depth, acc, c :: t =>
    if (c = '\x7d' || c = ']') && depth = 1 then some (acc ++ [c])
    else
      takeBalanced
        (if c = '\x7b' || c = '[' then depth + 1
         else if c = '\x7d' || c = ']' then depth - 1
         else depth)
        (acc ++ [c]) t

/-- Modelled from the spec: "attempt to locate the first top-level JSON
object/array by brace/bracket matching" — the span from the first opening
brace/bracket to its matching closer.  (No such locating step exists in
`extractText` in the source; this definition exists only to compare the
spec's description with the code.) -/
def specLocateJson : List Char → Option (List Char)
  | [] => none
  | c :: t =>
    if c = '\x7b' || c = '[' then takeBalanced 0 [] (c :: t)
    else specLocateJson t

/-- Modelled from the spec: the extractor the spec describes — strip a fenced
block if present, else locate the first top-level JSON object/array, then
parse, defaulting safely on failure. -/
def specExtractText (text : String) : Json :=
  match jsonParse (trimStr (match fenceSearch text.data with
    | some (_, cap) => String.mk cap
    | none =>
      match specLocateJson text.data with
      | some cs => String.mk cs
      | none => text)) with
  | some v => v
  | none => defaultSingle

/-! ### Spot accumulation and response order (`extract-storyboard` handler)

`spotGroups` is a plain JavaScript object filled in frame order
(`f.spotName || 'Untitled'`), and the response is assembled from
`Object.entries(spotGroups)`, which enumerates array-index-like keys first in
ascending numeric order and all other keys in insertion order. -/

/-- The key `f.spotName || 'Untitled'`. -/
def spotKeyOf (f : Frame) : String := jsOrStr f.spotName "Untitled"

/-- Insertion order of the keys of `spotGroups`: first appearance order of
the frames' spot keys. -/
def spotKeyList : List Frame → List String → List String
  | [], acc => acc
  | f :: rest, acc =>
    spotKeyList rest (if spotKeyOf f ∈ acc then acc else acc ++ [spotKeyOf f])

/-- The insertion-ordered key list of `spotGroups`. -/
def spotKeys (fs : List Frame) : List String := spotKeyList fs []

/-- Numeric value of an all-digit key (used only on array-index keys). -/
def decDigits (cs : List Char) : Option Nat :=
  if cs ≠ [] ∧ cs.all Char.isDigit then
    some (cs.foldl (fun n c => n * 10 + (c.toNat - 48)) 0)
  else none

/-- Modelled from the ECMAScript specification of property keys: a string is
an array index when it is the canonical decimal form of an integer below
`2^32 - 1`. -/
def canonicalIndexKey (s : String) : Bool :=
  match decDigits s.data with
  | some n => decide (Nat.repr n = s) && decide (n < 4294967295)
  | none => false

/-- Numeric sort key of an array-index key. -/
def keyVal (s : String) : Nat := (decDigits s.data).getD 0

/-- The ascending numeric order on array-index keys. -/
def keyOrder (a b : String) : Prop := keyVal a ≤ keyVal b

instance : DecidableRel keyOrder := fun a b => Nat.decLe (keyVal a) (keyVal b)

instance : IsTotal String keyOrder := ⟨fun a b => Nat.le_total (keyVal a) (keyVal b)⟩

instance : IsTrans String keyOrder :=
  ⟨fun _ _ _ hab hbc => Nat.le_trans hab hbc⟩

/-- Modelled from the ECMAScript ordinary own-property-key order used by
`Object.entries`: array-index keys in ascending numeric order first, then the
remaining string keys in insertion order.  (JavaScript-engine semantics, not
repository code.) -/
def jsObjectKeyOrder (keys : List String) : List String :=
  List.insertionSort keyOrder (keys.filter canonicalIndexKey)
    ++ keys.filter (fun k => !canonicalIndexKey k)

/-- The order of the spots in the handler's response. -/
def responseSpotOrder (fs : List Frame) : List String :=
  jsObjectKeyOrder (spotKeys fs)

/-! ### Fixtures for concrete instances -/

/-- A frame with the given label and visibility and all other fields empty. -/
def mkFrame (l : String) (v : Bool) : Frame :=
  { frameNumber := l, hasVisibleNumber := v, description := "", dialog := "",
    image := none, spotName := none, pageNum := 1, shotGroup := none }

/-- Out-of-range default frame for `List.getD`. -/
def frameDefault : Frame := mkFrame "" false

/-- A frame with the given label and optional image, unnumbered. -/
def mkFrameImg (l : String) (i : Option String) : Frame :=
  { frameNumber := l, hasVisibleNumber := false, description := "", dialog := "",
    image := i, spotName := none, pageNum := 1, shotGroup := none }

/-- Two visible-numbered frames whose labels have no numeric part. -/
def exC1 : List Frame := [mkFrame "A" true, mkFrame "B" true]

/-- The spec's five-frame grouping example. -/
def exC6 : List Frame :=
  [mkFrame "1A" true, mkFrame "1B" true, mkFrame "2" true, mkFrame "3A" true,
    mkFrame "3B" true]

/-- Three unnumbered, untagged frames. -/
def exC7 : List Frame := [mkFrame "1" false, mkFrame "2" false, mkFrame "3" false]

/-- A one-frame spot with a description and a dialog line. -/
def exC2 : List Frame :=
  [{ frameNumber := "1", hasVisibleNumber := true, description := "Dog runs",
     dialog := "MAN: Go", image := none, spotName := none, pageNum := 1,
     shotGroup := none }]

/-! ### The claims -/

/-- Claim C1 (counterexample): for the frame sequence `["A", "B"]`, both
visible-numbered and neither label yielding a numeric prefix, frame 1 does
not start a new shot — `groupIntoShots` returns one shot holding both
frames, contradicting the claim that two no-prefix frames are never placed
in the same shot. -/
theorem c1_counterexample :
    (leadingNumOf "A" = none ∧ leadingNumOf "B" = none ∧
      ((exC1.getD 1 frameDefault).hasVisibleNumber = true)) ∧
    (groupIntoShots exC1).length = 1 ∧
    (groupIntoShots exC1).map (fun s => s.frames) = [["A", "B"]] := by
  decide

/-- Claim C1 (amended): in the visible-numbers rule, when neither the
current frame's label nor the previous frame's label yields a leading
numeric prefix, both compare as the same "no-number" value, so the frame
does **not** start a new shot and the two frames are merged into one shot
by this rule. -/
theorem c1_theorem (p f : Frame) (hv : f.hasVisibleNumber = true)
    (hp : leadingNumOf p.frameNumber = none)
    (hf : leadingNumOf f.frameNumber = none) :
    startNewShot p f = false ∧ (groupIntoShots [p, f]).length = 1 := by
  have hs : startNewShot p f = false := by
    simp [startNewShot, hv, hp, hf]
  refine ⟨hs, ?_⟩
  simp [groupIntoShots, groupIntoShotsRaw, groupAux, hs]

/-- Witness for `c1_theorem` at the concrete labels "A" and "B". -/
theorem c1_witness :
    startNewShot (mkFrame "A" true) (mkFrame "B" true) = false ∧
      (groupIntoShots [mkFrame "A" true, mkFrame "B" true]).length = 1 :=
  c1_theorem (mkFrame "A" true) (mkFrame "B" true) (by decide) (by decide)
    (by decide)

/-- Claim C6 (confirmed): the label sequence `["1A","1B","2","3A","3B"]`, all
visible, groups into exactly 3 shots numbered "1", "2", "3" with 2, 1 and 2
frames, and the concatenation of the shots' label lists is the input label
sequence. -/
theorem c6_theorem :
    (groupIntoShots exC6).length = 3 ∧
    (groupIntoShots exC6).map (fun s => s.shotNumber) = ["1", "2", "3"] ∧
    (groupIntoShots exC6).map (fun s => s.frames.length) = [2, 1, 2] ∧
    ((groupIntoShots exC6).map (fun s => s.frames)).flatten
      = exC6.map (fun f => f.frameNumber) := by
  decide

theorem startNewShot_untagged (f : Frame) (hv : f.hasVisibleNumber = false)
    (hg : f.shotGroup = none) : ∀ p, startNewShot p f = true := by
  intro p
  cases hpg : p.shotGroup <;> simp [startNewShot, hv, hg, hpg]

theorem splitShotsAux_all_new (rest : List Frame)
    (h : ∀ f ∈ rest, ∀ p, startNewShot p f = true) :
    ∀ (p : Frame) (cur : List Frame),
      splitShotsAux p cur rest = cur :: rest.map (fun f => [f]) := by
  induction rest with
  | nil => intro p cur; simp [splitShotsAux]
  | cons f rs ih =>
    intro p cur
    have hf := h f (by simp) p
    rw [splitShotsAux, if_pos hf]
    rw [ih (fun g hg => h g (by simp [hg])) f [f]]
    simp

/-- Claim C7 (confirmed): a non-empty frame sequence with no visible numbers
and no `shotGroup` tags groups into exactly one shot per frame, each shot
holding a single frame. -/
theorem c7_theorem (fs : List Frame) (hne : fs ≠ [])
    (h : ∀ f ∈ fs, f.hasVisibleNumber = false ∧ f.shotGroup = none) :
    (groupIntoShots fs).length = fs.length ∧
      ∀ s ∈ groupIntoShots fs, s.frames.length = 1 := by
  have hall : ∀ f ∈ fs, ∀ p, startNewShot p f = true := fun f hf =>
    startNewShot_untagged f (h f hf).1 (h f hf).2
  have hsplit : splitShots fs = fs.map (fun f => [f]) := by
    cases fs with
    | nil => simp at hne
    | cons f rest =>
      rw [splitShots, splitShotsAux_all_new rest
        (fun g hg => hall g (by simp [hg]))]
      simp
  constructor
  · rw [groupIntoShots, List.length_map, groupRaw_eq_chunks,
      numberChunks_length, hsplit, List.length_map]
  · intro s hs
    rw [groupIntoShots, groupRaw_eq_chunks] at hs
    obtain ⟨g, hg, rfl⟩ := List.mem_map.mp hs
    obtain ⟨m, c, hc, rfl⟩ := numberChunks_mem _ 1 g hg
    rw [hsplit] at hc
    obtain ⟨f, _, rfl⟩ := List.mem_map.mp hc
    rfl

/-- Witness for `c7_theorem` at a concrete three-frame sequence. -/
theorem c7_witness :
    (groupIntoShots exC7).length = exC7.length ∧
      ∀ s ∈ groupIntoShots exC7, s.frames.length = 1 :=
  c7_theorem exC7 (by decide) (by decide)

/-- Claim C2 (confirmed): every shot produced by `groupIntoShots` carries the
per-frame arrays (the shot's frames' non-empty descriptions and dialogs, in
order) and the convenience strings: `description` and `dialog` are the
newline joins of those arrays, and `combined` is the newline join of the
descriptions followed by a blank entry followed by the dialogs with empty
entries filtered out. -/
theorem c2_theorem (fs : List Frame) (s : Shot) (hs : s ∈ groupIntoShots fs) :
    ∃ chunk : List Frame, chunk ≠ [] ∧ chunk <:+: fs ∧
      s.frames = chunk.map (fun f => f.frameNumber) ∧
      s.images = chunk.filterMap imgOf ∧
      s.descriptions = (chunk.map (fun f => f.description)).filter (fun d => d ≠ "") ∧
      s.dialogs = (chunk.map (fun f => f.dialog)).filter (fun d => d ≠ "") ∧
      s.description = String.intercalate "\n" s.descriptions ∧
      s.dialog = String.intercalate "\n" s.dialogs ∧
      s.combined = String.intercalate "\n"
        ((s.descriptions ++ [""] ++ s.dialogs).filter (fun d => d ≠ "")) := by
  rw [groupIntoShots, groupRaw_eq_chunks] at hs
  obtain ⟨g, hg, rfl⟩ := List.mem_map.mp hs
  obtain ⟨m, c, hc, rfl⟩ := numberChunks_mem _ 1 g hg
  refine ⟨c, splitShots_ne_nil fs c hc, ?_, rfl, rfl, rfl, rfl, rfl, rfl, rfl⟩
  exact splitShots_flatten fs ▸ List.infix_of_mem_flatten hc

/-- Witness for `c2_theorem` at a concrete one-frame spot. -/
theorem c2_witness :
    ∃ chunk : List Frame, chunk ≠ [] ∧ chunk <:+: exC2 ∧
      (⟨"1", ["1"], [], ["Dog runs"], ["MAN: Go"], "Dog runs", "MAN: Go",
        "Dog runs\nMAN: Go"⟩ : Shot).frames = chunk.map (fun f => f.frameNumber) ∧
      (⟨"1", ["1"], [], ["Dog runs"], ["MAN: Go"], "Dog runs", "MAN: Go",
        "Dog runs\nMAN: Go"⟩ : Shot).images = chunk.filterMap imgOf ∧
      (⟨"1", ["1"], [], ["Dog runs"], ["MAN: Go"], "Dog runs", "MAN: Go",
        "Dog runs\nMAN: Go"⟩ : Shot).descriptions
        = (chunk.map (fun f => f.description)).filter (fun d => d ≠ "") ∧
      (⟨"1", ["1"], [], ["Dog runs"], ["MAN: Go"], "Dog runs", "MAN: Go",
        "Dog runs\nMAN: Go"⟩ : Shot).dialogs
        = (chunk.map (fun f => f.dialog)).filter (fun d => d ≠ "") ∧
      (⟨"1", ["1"], [], ["Dog runs"], ["MAN: Go"], "Dog runs", "MAN: Go",
        "Dog runs\nMAN: Go"⟩ : Shot).description
        = String.intercalate "\n" (⟨"1", ["1"], [], ["Dog runs"], ["MAN: Go"],
            "Dog runs", "MAN: Go", "Dog runs\nMAN: Go"⟩ : Shot).descriptions ∧
      (⟨"1", ["1"], [], ["Dog runs"], ["MAN: Go"], "Dog runs", "MAN: Go",
        "Dog runs\nMAN: Go"⟩ : Shot).dialog
        = String.intercalate "\n" (⟨"1", ["1"], [], ["Dog runs"], ["MAN: Go"],
            "Dog runs", "MAN: Go", "Dog runs\nMAN: Go"⟩ : Shot).dialogs ∧
      (⟨"1", ["1"], [], ["Dog runs"], ["MAN: Go"], "Dog runs", "MAN: Go",
        "Dog runs\nMAN: Go"⟩ : Shot).combined
        = String.intercalate "\n"
          (((⟨"1", ["1"], [], ["Dog runs"], ["MAN: Go"], "Dog runs", "MAN: Go",
              "Dog runs\nMAN: Go"⟩ : Shot).descriptions ++ [""] ++
            (⟨"1", ["1"], [], ["Dog runs"], ["MAN: Go"], "Dog runs", "MAN: Go",
              "Dog runs\nMAN: Go"⟩ : Shot).dialogs).filter (fun d => d ≠ "")) :=
  c2_theorem exC2
    ⟨"1", ["1"], [], ["Dog runs"], ["MAN: Go"], "Dog runs", "MAN: Go",
      "Dog runs\nMAN: Go"⟩ (by decide)

/-- A spot whose two frames repeat the label "1" across two pages. -/
def exC4 : List Frame :=
  [{ frameNumber := "1", hasVisibleNumber := true, description := "",
     dialog := "", image := none, spotName := none, pageNum := 1,
     shotGroup := none },
   { frameNumber := "1", hasVisibleNumber := true, description := "",
     dialog := "", image := none, spotName := none, pageNum := 2,
     shotGroup := none }]

/-- Claim C4 (confirmed): the Renumbering Pass replaces the spot's labels by
"1", "2", "3", ... in merge order exactly when some frame lacks a visible
number or two frames share a label while originating from different pages;
otherwise it leaves the spot unchanged. -/
theorem c4_theorem (fs : List Frame) (hp : ∀ f ∈ fs, 0 < f.pageNum) :
    ((anyWithoutNumbers fs || hasDuplicates fs) = true ↔
      ((∃ f ∈ fs, f.hasVisibleNumber = false) ∨ DupPair fs)) ∧
    ((anyWithoutNumbers fs || hasDuplicates fs) = true →
      (renumberPass fs).map (fun f => f.frameNumber)
        = (List.range fs.length).map (fun k => Nat.repr (k + 1))) ∧
    ((anyWithoutNumbers fs || hasDuplicates fs) = false →
      renumberPass fs = fs) := by
  refine ⟨?_, ?_, ?_⟩
  · rw [Bool.or_eq_true]
    exact or_congr (anyWithoutNumbers_iff fs) (hasDuplicates_iff_dupPair fs hp)
  · intro h
    rw [renumberPass, if_pos h, renumberFrames, renumberFromIdx_labels fs 0]
    exact List.map_congr_left (fun k _ => by congr 1; omega)
  · intro h
    simp [renumberPass, h]

/-- Witness for `c4_theorem`: the two-frame spot repeating label "1" across
pages 1 and 2 triggers renumbering and comes out labelled "1", "2". -/
theorem c4_witness :
    (renumberPass exC4).map (fun f => f.frameNumber) = ["1", "2"] :=
  ((c4_theorem exC4 (by decide)).2.1 (by decide)).trans (by decide)

/-- The frame list of the Pass-2 failing input: the first frame has no image
(so it is not submitted to the oracle), the next two have images. -/
def exC3 : List Frame :=
  [mkFrameImg "1" none, mkFrameImg "2" (some "a"), mkFrameImg "3" (some "b")]

/-- Claim C3 (code bug): the images submitted to the oracle are those at
positions 1 and 2 (the frames with images), yet applying the oracle's
partition `[[1, 2]]` of the submitted 1-based indices annotates positions 0
and 1 of the unfiltered list — tagging the never-submitted, imageless frame
0 and leaving submitted frame 2 untagged (length, order and labels are
preserved). -/
theorem c3_theorem :
    submittedPositions exC3 = [1, 2] ∧
    (applyGroupings exC3 [[1, 2]]).map (fun f => f.shotGroup)
      = [some 0, some 0, none] ∧
    (exC3.getD 0 frameDefault).image = none ∧
    (applyGroupings exC3 [[1, 2]]).map (fun f => f.frameNumber)
      = ["1", "2", "3"] := by
  decide

/-- Claim C5 (counterexample): for a page with one located region and zero
extracted text frames, the single record at index `0 ≥ min(L, T)` does not
have all its text fields empty — its `frameNumber` is the synthesized
label "1". -/
theorem c5_counterexample :
    (mergePage 1 false none [] ["imgA"]).length = 1 ∧
    ((mergePage 1 false none [] ["imgA"]).getD 0 frameDefault).frameNumber
      = "1" ∧
    ¬((mergePage 1 false none [] ["imgA"]).getD 0 frameDefault).frameNumber
      = "" := by
  decide

/-- Claim C5 (amended): a page with `L` located regions and `T` text frames
yields exactly `max(L, T)` records in index order; at indices at or beyond
`L` the image is absent, and at indices at or beyond `T` the description and
dialog are empty while `frameNumberLabel` is synthesized as the 1-based
index string (not left empty). -/
theorem c5_theorem (pageNum : Nat) (hv : Bool) (spot : Option String)
    (tfs : List TextFrame) (imgs : List String) :
    (mergePage pageNum hv spot tfs imgs).length = max tfs.length imgs.length ∧
    (∀ j, (hj : j < (mergePage pageNum hv spot tfs imgs).length) →
      (mergePage pageNum hv spot tfs imgs)[j]
        = mergedFrameAt pageNum hv spot tfs imgs j) ∧
    (∀ j, imgs.length ≤ j →
      (mergedFrameAt pageNum hv spot tfs imgs j).image = none) ∧
    (∀ j, tfs.length ≤ j →
      (mergedFrameAt pageNum hv spot tfs imgs j).description = "" ∧
      (mergedFrameAt pageNum hv spot tfs imgs j).dialog = "" ∧
      (mergedFrameAt pageNum hv spot tfs imgs j).frameNumber
        = Nat.repr (j + 1)) := by
  refine ⟨by simp [mergePage], ?_, ?_, ?_⟩
  · intro j hj
    simp [mergePage] at hj
    simp [mergePage, List.getElem_map, List.getElem_range]
  · intro j hj
    simp [mergedFrameAt, imageAt, List.getElem?_eq_none hj]
  · intro j hj
    have hnone : tfs[j]? = none := List.getElem?_eq_none hj
    simp [mergedFrameAt, jsOrStr, List.getD, hnone, emptyTextFrame]

/-- Witness for `c5_theorem` at the concrete page with one region and no
text frames. -/
theorem c5_witness :
    (mergePage 1 false none [] ["imgA"]).length = 1 ∧
    (mergedFrameAt 1 false none [] ["imgA"] 0).description = "" ∧
    (mergedFrameAt 1 false none [] ["imgA"] 0).dialog = "" ∧
    (mergedFrameAt 1 false none [] ["imgA"] 0).frameNumber = Nat.repr 1 := by
  have h := c5_theorem 1 false none [] ["imgA"]
  exact ⟨h.1.trans (by decide), (h.2.2.2 0 (by decide)).1,
    (h.2.2.2 0 (by decide)).2.1, (h.2.2.2 0 (by decide)).2.2⟩

/-- An oracle response wrapping a valid JSON object in prose, with no code
fence. -/
def exC8text : String :=
  "Sure! Here is the JSON: \x7b\"spotName\": \"X\", \"frames\": []\x7d hope that helps"

/-- Claim C8 (counterexample): on a fence-less response embedding a JSON
object in prose, `extractText` returns the safe empty default — it never
attempts to locate the object, while the extractor described by the spec
(`specExtractText`) finds and parses it, so the two differ. -/
theorem c8_counterexample :
    extractTextParse exC8text = defaultSingle ∧
    specExtractText exC8text
      = Json.obj [("spotName", Json.str "X"), ("frames", Json.arr [])] ∧
    ¬extractTextParse exC8text = specExtractText exC8text := by
  refine ⟨rfl, rfl, ?_⟩
  intro h
  rw [show extractTextParse exC8text = defaultSingle from rfl,
    show specExtractText exC8text
      = Json.obj [("spotName", Json.str "X"), ("frames", Json.arr [])] from rfl,
    defaultSingle] at h
  simp at h

/-- Claim C8 (amended): the single-page extractor parses the fence capture
when the fence regex matches and otherwise the whole trimmed response (there
is no JSON-locating step), and the batched extractor likewise; whenever
`JSON.parse` fails, the single variant returns `{spotName: null, frames: []}`
and the batched variant returns one such default per requested page. -/
theorem c8_theorem (text : String) (pageNums : List Nat) :
    (jsonParse (trimStr (singleCandidate text)) = none →
      extractTextParse text = defaultSingle) ∧
    (∀ v, jsonParse (trimStr (singleCandidate text)) = some v →
      extractTextParse text = v) ∧
    (fenceSearch text.data = none → singleCandidate text = text) ∧
    (∀ whole cap, fenceSearch text.data = some (whole, cap) →
      singleCandidate text = String.mk cap) ∧
    (jsonParse (trimStr (batchedCandidate text)) = none →
      extractTextBatchedParse pageNums text = pageNums.map emptyPageResult ∧
      (extractTextBatchedParse pageNums text).length = pageNums.length) := by
  refine ⟨?_, ?_, ?_, ?_, ?_⟩
  · intro h; simp only [extractTextParse, h]
  · intro v h; simp only [extractTextParse, h]
  · intro h; simp only [singleCandidate, h]
  · intro whole cap h; simp only [singleCandidate, h]
  · intro h
    constructor
    · simp only [extractTextBatchedParse, h]
    · simp [extractTextBatchedParse, h]

/-- A response that parses as JSON in neither variant. -/
def exC8bad : String := "not json"

/-- Witness for `c8_theorem`: unparseable text yields the defaults in both
variants. -/
theorem c8_witness :
    extractTextParse exC8bad = defaultSingle ∧
    extractTextBatchedParse [1, 2] exC8bad = [1, 2].map emptyPageResult :=
  ⟨(c8_theorem exC8bad [1, 2]).1 rfl,
    ((c8_theorem exC8bad [1, 2]).2.2.2.2 rfl).1⟩

/-! ### Claim C9: the rasterizer retry policy -/

theorem pdfRun_eq (attempt : Nat → Option String) (rc : Nat) :
    pdfRun attempt rc = match attempt rc with
      | none => { result := Except.ok (), attempts := 1, delays := [] }
      | some m =>
        if rc < MAX_RETRIES ∧ transientError m = true then
          { result := (pdfRun attempt (rc + 1)).result,
            attempts := (pdfRun attempt (rc + 1)).attempts + 1,
            delays := 2000 * (rc + 1) :: (pdfRun attempt (rc + 1)).delays }
        else { result := Except.error m, attempts := 1, delays := [] } := by
  conv_lhs => unfold pdfRun
  cases attempt rc with
  | none => rfl
  | some m =>
    by_cases h : rc < MAX_RETRIES ∧ transientError m = true
    · simp [h]
    · simp [h]

theorem pdfRun_ok {attempt : Nat → Option String} {rc : Nat}
    (h : attempt rc = none) :
    pdfRun attempt rc = { result := Except.ok (), attempts := 1, delays := [] } := by
  rw [pdfRun_eq, h]

theorem pdfRun_stop {attempt : Nat → Option String} {rc : Nat} {m : String}
    (h : attempt rc = some m)
    (hc : ¬(rc < MAX_RETRIES ∧ transientError m = true)) :
    pdfRun attempt rc
      = { result := Except.error m, attempts := 1, delays := [] } := by
  rw [pdfRun_eq, h]
  exact if_neg hc

theorem pdfRun_retry {attempt : Nat → Option String} {rc : Nat} {m : String}
    (h : attempt rc = some m) (hrc : rc < MAX_RETRIES)
    (ht : transientError m = true) :
    (pdfRun attempt rc).result = (pdfRun attempt (rc + 1)).result ∧
    (pdfRun attempt rc).attempts = (pdfRun attempt (rc + 1)).attempts + 1 ∧
    (pdfRun attempt rc).delays
      = 2000 * (rc + 1) :: (pdfRun attempt (rc + 1)).delays := by
  have he : pdfRun attempt rc
      = { result := (pdfRun attempt (rc + 1)).result,
          attempts := (pdfRun attempt (rc + 1)).attempts + 1,
          delays := 2000 * (rc + 1) :: (pdfRun attempt (rc + 1)).delays } := by
    rw [pdfRun_eq, h]
    exact if_pos ⟨hrc, ht⟩
  exact ⟨by rw [he], by rw [he], by rw [he]⟩

theorem pdfRun_spec (attempt : Nat → Option String) :
    ∀ (n rc : Nat), rc + n = MAX_RETRIES →
      (pdfRun attempt rc).attempts ≤ n + 1 ∧
      (pdfRun attempt rc).delays.length + 1 = (pdfRun attempt rc).attempts ∧
      (∀ k, k + 1 < (pdfRun attempt rc).attempts →
        ∃ m, attempt (rc + k) = some m ∧ transientError m = true) ∧
      (∀ k, k < (pdfRun attempt rc).delays.length →
        (pdfRun attempt rc).delays.getD k 0 = 2000 * (rc + k + 1)) ∧
      (∀ m, (pdfRun attempt rc).result = Except.error m →
        attempt (rc + (pdfRun attempt rc).attempts - 1) = some m ∧
        (transientError m = false ∨
          rc + (pdfRun attempt rc).attempts = MAX_RETRIES + 1)) := by
  intro n
  induction n with
  | zero =>
    intro rc hrc
    cases ha : attempt rc with
    | none =>
      rw [pdfRun_ok ha]
      refine ⟨by simp, by simp, ?_, ?_, ?_⟩
      · intro k hk; simp at hk
      · intro k hk; simp at hk
      · intro m hm; simp at hm
    | some m =>
      rw [pdfRun_stop ha (fun hc => absurd hc.1 (by omega))]
      refine ⟨by simp, by simp, ?_, ?_, ?_⟩
      · intro k hk; simp at hk
      · intro k hk; simp at hk
      · intro m' hm'
        simp at hm'
        subst hm'
        refine ⟨by simpa using ha, Or.inr ?_⟩
        show rc + 1 = MAX_RETRIES + 1
        omega
  | succ n ih =>
    intro rc hrc
    cases ha : attempt rc with
    | none =>
      rw [pdfRun_ok ha]
      refine ⟨by simp, by simp, ?_, ?_, ?_⟩
      · intro k hk; simp at hk
      · intro k hk; simp at hk
      · intro m hm; simp at hm
    | some m =>
      by_cases ht : transientError m = true
      · obtain ⟨hr, hat, hds⟩ := pdfRun_retry ha (by omega) ht
        obtain ⟨ih1, ih2, ih3, ih4, ih5⟩ := ih (rc + 1) (by omega)
        refine ⟨by rw [hat]; omega, by rw [hds, hat, List.length_cons]; omega,
          ?_, ?_, ?_⟩
        · intro k hk
          rw [hat] at hk
          match k with
          | 0 => exact ⟨m, by simpa using ha, ht⟩
          | Nat.succ j =>
            obtain ⟨m', hm', ht'⟩ := ih3 j (by omega)
            refine ⟨m', ?_, ht'⟩
            rw [show rc + (j + 1) = rc + 1 + j by omega]
            exact hm'
        · intro k hk
          rw [hds] at hk
          rw [hds]
          simp only [List.length_cons] at hk
          match k with
          | 0 => simp
          | Nat.succ j =>
            rw [List.getD_cons_succ, ih4 j (by omega)]
            congr 1
            omega
        · intro m' hm'
          rw [hr] at hm'
          obtain ⟨hat', hdisj⟩ := ih5 m' hm'
          refine ⟨?_, ?_⟩
          · rw [hat, show rc + ((pdfRun attempt (rc + 1)).attempts + 1) - 1
              = rc + 1 + (pdfRun attempt (rc + 1)).attempts - 1 by omega]
            exact hat'
          · rcases hdisj with hfalse | heq
            · exact Or.inl hfalse
            · refine Or.inr ?_
              rw [hat]
              omega
      · rw [pdfRun_stop ha (fun hc => absurd hc.2 (by simp [ht]))]
        refine ⟨by simp, by simp, ?_, ?_, ?_⟩
        · intro k hk; simp at hk
        · intro k hk; simp at hk
        · intro m' hm'
          simp at hm'
          subst hm'
          refine ⟨by simpa using ha, Or.inl (by simpa using ht)⟩

/-- Claim C9 (confirmed): `pdfToImages` makes at most `MAX_RETRIES + 1 = 3`
attempts; every attempt that was followed by another one failed with a
message classified transient; the waits between attempts are
`2000 * (k + 1)` ms, i.e. the exponentially increasing `1000 * 2 ^ (k + 1)`;
a non-transient failure on the first attempt is rethrown immediately with no
retry; and an error result always carries the last attempt's message, which
was either non-transient or had exhausted the retry budget. -/
theorem c9_theorem (attempt : Nat → Option String) :
    (pdfToImagesRun attempt).attempts ≤ MAX_RETRIES + 1 ∧
    (pdfToImagesRun attempt).delays.length + 1
      = (pdfToImagesRun attempt).attempts ∧
    (∀ k, k + 1 < (pdfToImagesRun attempt).attempts →
      ∃ m, attempt k = some m ∧ transientError m = true) ∧
    (∀ k, k < (pdfToImagesRun attempt).delays.length →
      (pdfToImagesRun attempt).delays.getD k 0 = 2000 * (k + 1) ∧
      (pdfToImagesRun attempt).delays.getD k 0 = 1000 * 2 ^ (k + 1)) ∧
    (∀ m, attempt 0 = some m → transientError m = false →
      pdfToImagesRun attempt
        = { result := Except.error m, attempts := 1, delays := [] }) ∧
    (∀ m, (pdfToImagesRun attempt).result = Except.error m →
      attempt ((pdfToImagesRun attempt).attempts - 1) = some m ∧
      (transientError m = false ∨
        (pdfToImagesRun attempt).attempts = MAX_RETRIES + 1)) := by
  obtain ⟨h1, h2, h3, h4, h5⟩ := pdfRun_spec attempt MAX_RETRIES 0 rfl
  simp only [pdfToImagesRun]
  refine ⟨h1, h2, ?_, ?_, ?_, ?_⟩
  · intro k hk
    obtain ⟨m, hm, ht⟩ := h3 k hk
    exact ⟨m, by simpa using hm, ht⟩
  · intro k hk
    have hv := h4 k hk
    have h1' := h1
    simp only [MAX_RETRIES] at h1'
    have hk2 : k < 2 := by omega
    constructor
    · rw [hv]; omega
    · rw [hv]
      match k, hk2 with
      | 0, _ => norm_num
      | 1, _ => norm_num
  · intro m h0 ht
    exact pdfRun_stop h0 (fun hc => absurd hc.2 (by simp [ht]))
  · intro m hm
    obtain ⟨hat, hdisj⟩ := h5 m hm
    exact ⟨by simpa using hat, by simpa using hdisj⟩

theorem c9_witness :
    pdfToImagesRun (fun _ => some "boom")
      = { result := Except.error "boom", attempts := 1, delays := [] } :=
  (c9_theorem (fun _ => some "boom")).2.2.2.2.1 "boom" rfl (by decide)

/-! ### Claim C10: response spot order -/

/-- A run whose only spot is the integer-named "2". -/
def exC10 : List Frame :=
  [{ frameNumber := "1", hasVisibleNumber := true, description := "",
     dialog := "", image := none, spotName := some "2", pageNum := 1,
     shotGroup := none }]

/-- A run with the non-integer spot names "ACME" and "Untitled". -/
def exC10w : List Frame :=
  [{ frameNumber := "1", hasVisibleNumber := true, description := "",
     dialog := "", image := none, spotName := some "ACME", pageNum := 1,
     shotGroup := none },
   { frameNumber := "2", hasVisibleNumber := true, description := "",
     dialog := "", image := none, spotName := none, pageNum := 2,
     shotGroup := none }]

/-- Claim C10 (counterexample): a run whose single spot is named "2" — a
canonical integer string — still emits the spots in first-appearance order,
so spot order equal to first-appearance order does not imply the absence of
integer-named spots. -/
theorem c10_counterexample :
    responseSpotOrder exC10 = spotKeys exC10 ∧
    spotKeys exC10 = ["2"] ∧
    canonicalIndexKey "2" = true := by
  decide

/-- Claim C10 (amended): whenever no spot name is a canonical integer
string, the response's spot order is the first-appearance order of the spot
names; in every run the response order is the integer-named spots sorted in
ascending numeric order followed by the remaining spots in first-appearance
order. -/
theorem c10_theorem (fs : List Frame) :
    ((∀ k ∈ spotKeys fs, canonicalIndexKey k = false) →
      responseSpotOrder fs = spotKeys fs) ∧
    responseSpotOrder fs
      = List.insertionSort keyOrder ((spotKeys fs).filter canonicalIndexKey)
        ++ (spotKeys fs).filter (fun k => !canonicalIndexKey k) ∧
    List.Sorted keyOrder
      (List.insertionSort keyOrder ((spotKeys fs).filter canonicalIndexKey)) ∧
    (List.insertionSort keyOrder ((spotKeys fs).filter canonicalIndexKey)).Perm
      ((spotKeys fs).filter canonicalIndexKey) := by
  refine ⟨?_, rfl, List.sorted_insertionSort keyOrder _,
    List.perm_insertionSort keyOrder _⟩
  intro h
  have h1 : (spotKeys fs).filter canonicalIndexKey = [] :=
    List.filter_eq_nil_iff.mpr (fun k hk => by simp [h k hk])
  have h2 : (spotKeys fs).filter (fun k => !canonicalIndexKey k) = spotKeys fs :=
    List.filter_eq_self.mpr (fun k hk => by simp [h k hk])
  rw [responseSpotOrder, jsObjectKeyOrder, h1, h2]
  rfl

/-- Witness for `c10_theorem`: with the non-integer names "ACME" and
"Untitled", the response order is the first-appearance order. -/
theorem c10_witness : responseSpotOrder exC10w = spotKeys exC10w :=
  (c10_theorem exC10w).1 (by decide)

end PdfServer
